import Mathlib

/-!
Verification of the configuration-flattening algorithm of `prefect-dbt`
(`src/prefect_dbt/cli/configs/base.py`).

The Python code turns a typed configuration object (a pydantic model with
declared fields, nested sub-objects and an open `extras` mapping) into a flat
string-to-scalar dictionary: `DbtConfigs.get_configs` serialises the model to a
dictionary restricted to the working field set and then
`DbtConfigs._populate_configs_json` walks that dictionary, skipping
underscore-prefixed and excluded keys, stripping trailing underscores,
dropping null values, recursing into nested fields, unwrapping secret values,
and raising `ValueError` on a duplicate key.

The embedding below mirrors that code over a deep value type: Python
dictionaries become ordered association lists (`Entries`), exceptions become
`Except String`, and each concrete model class becomes a `DbtNode` record
carrying the class's field-metadata tuples and its runtime field dictionary.
-/

namespace PrefectDbt

mutual

/-- Scalar and dictionary values that can appear in a pydantic `.dict()`
serialisation: strings, ints, bools, bytes, pydantic `SecretStr` /
`SecretBytes` wrappers, Python `None`, and nested dictionaries. -/
inductive Val : Type where
  | str : String → Val
  | int : Int → Val
  | bool : Bool → Val
  | bytes : String → Val
  | secretStr : String → Val
  | secretBytes : String → Val
  | none : Val
  | dict : Entries → Val

/-- An ordered dictionary (Python `dict` preserves insertion order). -/
inductive Entries : Type where
  | nil : Entries
  | cons : String → Val → Entries → Entries

end

/-- The keys of a dictionary, in order. -/
def Entries.keys : Entries → List String
  | .nil => []
  | .cons k _ rest => k :: Entries.keys rest

/-- Keep only the pairs whose key satisfies `p` (pydantic's `include=` filter). -/
def Entries.filterKeys (p : String → Bool) : Entries → Entries
  | .nil => .nil
  | .cons k v rest =>
    if p k then .cons k v (Entries.filterKeys p rest) else Entries.filterKeys p rest

/-- Test for Python `None` (the `value is not None` check). -/
def Val.isNone : Val → Bool
  | .none => true
  | _ => false

/-- Test for the pydantic secret wrappers
(`isinstance(value, (SecretStr, SecretBytes))`). -/
def Val.isSecretWrapped : Val → Bool
  | .secretStr _ => true
  | .secretBytes _ => true
  | _ => false

/-- Python `value.get_secret_value()` applied when the value is a secret wrapper,
identity otherwise (lines 51-52 of `base.py`). -/
def unwrap_secret : Val → Val
  | .secretStr s => .str s
  | .secretBytes b => .bytes b
  | v => v

/-- Python `key.rstrip("_")`: remove every trailing underscore. -/
def rstrip_underscore (s : String) : String :=
  ⟨(s.data.reverse.dropWhile (fun c => c == '_')).reverse⟩

/-- Python `key.startswith("_")`. -/
def starts_with_underscore (s : String) : Bool :=
  s.data.head? == some '_'

/-- The message of the `ValueError` raised on a duplicate key
(lines 47-50 of `base.py`). -/
def dup_msg (key : String) : String :=
  "The keyword, " ++ key ++
    ", has already been provided in TargetConfigs; remove duplicated keywords to continue"

/-- Model of the `AttributeError` Python would raise if a nested-field value
were not a dictionary (iterating `.items()` on a non-dict). -/
def attr_error_msg : String :=
  "AttributeError: nested field value has no items"

/-- The class-level metadata tuples consulted by `_populate_configs_json`:
`self._exclude_fields` and `self._nested_fields`. The recursion always uses
`self`'s tuples, at every nesting depth. -/
structure DbtConfigsMeta : Type where
  exclude_fields : List String
  nested_fields : List String
deriving Repr, DecidableEq

/-- Model of `DbtConfigs._populate_configs_json(self, configs_json, dict_)`
(lines 27-54 of `base.py`), with the mutable accumulator `configs_json`
threaded explicitly as an ordered association list and the raised
`ValueError` / `AttributeError` modelled as `Except.error`. -/
def populate_configs_json (cfg : DbtConfigsMeta)
    (configs_json : List (String × Val)) : Entries → Except String (List (String × Val))
  | .nil => .ok configs_json
  | .cons key value rest =>
    if starts_with_underscore key || key ∈ cfg.exclude_fields then
      populate_configs_json cfg configs_json rest
    else
      let k := rstrip_underscore key
      if value.isNone then
        populate_configs_json cfg configs_json rest
      else if k ∈ cfg.nested_fields then
        match value with
        | .dict d =>
          match populate_configs_json cfg configs_json d with
          | .ok acc2 => populate_configs_json cfg acc2 rest
          | .error e => .error e
        | _ => .error attr_error_msg
      else if k ∈ configs_json.map Prod.fst then
        .error (dup_msg k)
      else
        populate_configs_json cfg (configs_json ++ [(k, unwrap_secret value)]) rest

/-- A concrete `DbtConfigs` instance: the class-level metadata tuples
(`_include_fields`, `_exclude_fields`, `_nested_fields`) together with the
instance's full runtime field dictionary (what `self.dict()` with no filter
would produce). `include_fields = []` models both `None` and the empty tuple,
which behave identically (`if self._include_fields:` is falsy for both). -/
structure DbtNode : Type where
  include_fields : List String
  exclude_fields : List String
  nested_fields : List String
  fields : Entries

/-- The metadata tuples `_populate_configs_json` reads from `self`. -/
def DbtNode.meta (n : DbtNode) : DbtConfigsMeta :=
  ⟨n.exclude_fields, n.nested_fields⟩

/-- Model of `self.dict(include=include)` in `get_configs` (lines 63-68 of `base.py`):
when `_include_fields` is truthy the serialisation is restricted to
`set(self._include_fields + self._nested_fields)`; otherwise the full field
dictionary is used. -/
def subset_dict (n : DbtNode) : Entries :=
  if n.include_fields = [] then n.fields
  else n.fields.filterKeys (fun k => k ∈ n.include_fields ++ n.nested_fields)

/-- Model of `DbtConfigs.get_configs` (lines 56-69 of `base.py`): serialise the working
field set and populate a fresh empty dictionary from it. -/
def get_configs (n : DbtNode) : Except String (List (String × Val)) :=
  populate_configs_json n.meta [] (subset_dict n)

/-- A `TargetConfigs` instance (lines 72-104 of `base.py`):
`_include_fields = ("type", "schema_", "threads")`, inherited
`_exclude_fields = ("block_type_slug",)` and `_nested_fields = ("extras",)`.
The runtime field dictionary lists the inherited `extras` field first, then
`type`, `schema_` (the pydantic field name of the `schema`-aliased field) and
`threads` (whose pydantic default is `4`), in declaration order. -/
def targetConfigs (type schema_v : String) (threads : Int) (extras : Val) : DbtNode :=
  { include_fields := ["type", "schema_", "threads"]
  , exclude_fields := ["block_type_slug"]
  , nested_fields := ["extras"]
  , fields :=
      .cons "extras" extras
        (.cons "type" (.str type)
          (.cons "schema_" (.str schema_v)
            (.cons "threads" (.int threads) .nil))) }

/-- A concrete instance of a `CredentialsTargetConfigs` subclass
(lines 107-112 of `base.py`): same metadata as `TargetConfigs` except
`_nested_fields = ("credentials",) + ("extras",)`, plus a `credentials`
field declared after the inherited ones. -/
def credentialsTargetConfigs (type schema_v : String) (threads : Int)
    (credentials extras : Val) : DbtNode :=
  { include_fields := ["type", "schema_", "threads"]
  , exclude_fields := ["block_type_slug"]
  , nested_fields := ["credentials", "extras"]
  , fields :=
      .cons "extras" extras
        (.cons "type" (.str type)
          (.cons "schema_" (.str schema_v)
            (.cons "threads" (.int threads)
              (.cons "credentials" credentials .nil)))) }

/-- A `GlobalConfigs` instance (lines 115-182 of `base.py`): twelve optional
toggle fields, each defaulting to `None`, with
`_include_fields` naming exactly those twelve. The Lean binder names
`part_parse`, `use_exp_parse` and `static_parse` stand for the Python fields
`partial_parse`, `use_experimental_parser` and `static_parser`. -/
def globalConfigs (send_stats use_colors part_parse printer_width write_json
    warn_error log_format debug version_check fail_fast use_exp_parse
    static_parse extras : Val) : DbtNode :=
  { include_fields :=
      [ "send_anonymous_usage_stats", "use_colors", "partial_parse"
      , "printer_width", "write_json", "warn_error", "log_format", "debug"
      , "version_check", "fail_fast", "use_experimental_parser", "static_parser" ]
  , exclude_fields := ["block_type_slug"]
  , nested_fields := ["extras"]
  , fields :=
      .cons "extras" extras
        (.cons "send_anonymous_usage_stats" send_stats
          (.cons "use_colors" use_colors
            (.cons "partial_parse" part_parse
              (.cons "printer_width" printer_width
                (.cons "write_json" write_json
                  (.cons "warn_error" warn_error
                    (.cons "log_format" log_format
                      (.cons "debug" debug
                        (.cons "version_check" version_check
                          (.cons "fail_fast" fail_fast
                            (.cons "use_experimental_parser" use_exp_parse
                              (.cons "static_parser" static_parse .nil)))))))))))) }

/-! ### Spec-side description of the flattening

`contrib_entries` follows the spec's description of the flatten result
(ignoring duplicate detection): the non-null, non-excluded,
non-underscore-prefixed fields under their stripped names, with the contents
of nested fields merged in place of the nested field names and secret
wrappers unwrapped. `wf_entries` states the typing guarantee of the Python
models: the value of every visited nested field is a dictionary. -/

/-- The list of (stripped key, unwrapped value) pairs the spec says a
successful flatten emits, in visiting order. -/
def contrib_entries (cfg : DbtConfigsMeta) : Entries → List (String × Val)
  | .nil => []
  | .cons key value rest =>
    if starts_with_underscore key || key ∈ cfg.exclude_fields then
      contrib_entries cfg rest
    else
      let k := rstrip_underscore key
      if value.isNone then
        contrib_entries cfg rest
      else if k ∈ cfg.nested_fields then
        (match value with
         | .dict d => contrib_entries cfg d
         | _ => []) ++ contrib_entries cfg rest
      else
        (k, unwrap_secret value) :: contrib_entries cfg rest

/-- The stripped names of the contributing fields, in visiting order. -/
def contrib_keys (cfg : DbtConfigsMeta) (l : Entries) : List String :=
  (contrib_entries cfg l).map Prod.fst

/-- Well-formedness of a serialised dictionary: every visited nested-field
value is itself a dictionary. Pydantic's typing guarantees this for every
dictionary `get_configs` actually passes to `_populate_configs_json`. -/
def wf_entries (cfg : DbtConfigsMeta) : Entries → Bool
  | .nil => true
  | .cons key value rest =>
    if starts_with_underscore key || key ∈ cfg.exclude_fields then
      wf_entries cfg rest
    else
      let k := rstrip_underscore key
      if value.isNone then
        wf_entries cfg rest
      else if k ∈ cfg.nested_fields then
        (match value with
         | .dict d => wf_entries cfg d
         | _ => false) && wf_entries cfg rest
      else
        wf_entries cfg rest

/-- A value whose `isNone` test succeeds is `Val.none`. -/
lemma Val.isNone_iff {v : Val} : v.isNone = true ↔ v = Val.none := by
  cases v <;> simp [Val.isNone]

/-! ### Branch-wise unfolding lemmas

One lemma per branch of the loop body, for each of `populate_configs_json`,
`contrib_entries` and `wf_entries`, so later proofs can rewrite without
fighting the compiled match. Throughout, `skip` abbreviates the test of
line 37 of `base.py` (underscore-prefixed or excluded key). -/

section StepLemmas

variable {cfg : DbtConfigsMeta} {acc : List (String × Val)} {key : String}
variable {value : Val} {rest d : Entries}

lemma populate_cons_skip
    (h : (starts_with_underscore key || decide (key ∈ cfg.exclude_fields)) = true) :
    populate_configs_json cfg acc (.cons key value rest)
      = populate_configs_json cfg acc rest := by
  cases value <;> simp [populate_configs_json, h]

lemma contrib_cons_skip
    (h : (starts_with_underscore key || decide (key ∈ cfg.exclude_fields)) = true) :
    contrib_entries cfg (.cons key value rest) = contrib_entries cfg rest := by
  cases value <;> simp [contrib_entries, h]

lemma wf_cons_skip
    (h : (starts_with_underscore key || decide (key ∈ cfg.exclude_fields)) = true) :
    wf_entries cfg (.cons key value rest) = wf_entries cfg rest := by
  cases value <;> simp [wf_entries, h]

lemma populate_cons_none
    (h : ¬(starts_with_underscore key || decide (key ∈ cfg.exclude_fields)) = true) :
    populate_configs_json cfg acc (.cons key Val.none rest)
      = populate_configs_json cfg acc rest := by
  simp [populate_configs_json, h, Val.isNone]

lemma contrib_cons_none
    (h : ¬(starts_with_underscore key || decide (key ∈ cfg.exclude_fields)) = true) :
    contrib_entries cfg (.cons key Val.none rest) = contrib_entries cfg rest := by
  simp [contrib_entries, h, Val.isNone]

lemma wf_cons_none
    (h : ¬(starts_with_underscore key || decide (key ∈ cfg.exclude_fields)) = true) :
    wf_entries cfg (.cons key Val.none rest) = wf_entries cfg rest := by
  simp [wf_entries, h, Val.isNone]

lemma populate_cons_nested
    (h : ¬(starts_with_underscore key || decide (key ∈ cfg.exclude_fields)) = true)
    (hn : rstrip_underscore key ∈ cfg.nested_fields) :
    populate_configs_json cfg acc (.cons key (Val.dict d) rest)
      = match populate_configs_json cfg acc d with
        | .ok acc2 => populate_configs_json cfg acc2 rest
        | .error e => .error e := by
  simp [populate_configs_json, h, hn, Val.isNone]

lemma contrib_cons_nested
    (h : ¬(starts_with_underscore key || decide (key ∈ cfg.exclude_fields)) = true)
    (hn : rstrip_underscore key ∈ cfg.nested_fields) :
    contrib_entries cfg (.cons key (Val.dict d) rest)
      = contrib_entries cfg d ++ contrib_entries cfg rest := by
  simp [contrib_entries, h, hn, Val.isNone]

lemma wf_cons_nested
    (h : ¬(starts_with_underscore key || decide (key ∈ cfg.exclude_fields)) = true)
    (hn : rstrip_underscore key ∈ cfg.nested_fields) :
    wf_entries cfg (.cons key (Val.dict d) rest)
      = (wf_entries cfg d && wf_entries cfg rest) := by
  simp [wf_entries, h, hn, Val.isNone]

lemma wf_cons_nested_nondict
    (h : ¬(starts_with_underscore key || decide (key ∈ cfg.exclude_fields)) = true)
    (hn : rstrip_underscore key ∈ cfg.nested_fields)
    (hnd : ∀ d : Entries, value ≠ Val.dict d) (hnn : value ≠ Val.none) :
    wf_entries cfg (.cons key value rest) = false := by
  cases value <;>
    first
    | exact absurd rfl (hnn ·)
    | exact absurd rfl (hnd _ ·)
    | simp [wf_entries, h, hn, Val.isNone]

lemma populate_cons_store
    (h : ¬(starts_with_underscore key || decide (key ∈ cfg.exclude_fields)) = true)
    (hnn : value.isNone = false)
    (hn : rstrip_underscore key ∉ cfg.nested_fields) :
    populate_configs_json cfg acc (.cons key value rest)
      = if rstrip_underscore key ∈ acc.map Prod.fst then
          .error (dup_msg (rstrip_underscore key))
        else
          populate_configs_json cfg
            (acc ++ [(rstrip_underscore key, unwrap_secret value)]) rest := by
  cases value <;> simp_all [populate_configs_json, h, hn, Val.isNone]

lemma contrib_cons_store
    (h : ¬(starts_with_underscore key || decide (key ∈ cfg.exclude_fields)) = true)
    (hnn : value.isNone = false)
    (hn : rstrip_underscore key ∉ cfg.nested_fields) :
    contrib_entries cfg (.cons key value rest)
      = (rstrip_underscore key, unwrap_secret value) :: contrib_entries cfg rest := by
  cases value <;> simp_all [contrib_entries, h, hn, Val.isNone]

lemma wf_cons_store
    (h : ¬(starts_with_underscore key || decide (key ∈ cfg.exclude_fields)) = true)
    (hnn : value.isNone = false)
    (hn : rstrip_underscore key ∉ cfg.nested_fields) :
    wf_entries cfg (.cons key value rest) = wf_entries cfg rest := by
  cases value <;> simp_all [wf_entries, h, hn, Val.isNone]

end StepLemmas

/-- On a well-formed dictionary whose contributing keys (together with the
keys already in the accumulator) are pairwise distinct,
`_populate_configs_json` succeeds and appends exactly the contributing
entries to the accumulator. -/
theorem populate_ok (cfg : DbtConfigsMeta) :
    ∀ (acc : List (String × Val)) (l : Entries),
      wf_entries cfg l = true →
      (acc.map Prod.fst ++ contrib_keys cfg l).Nodup →
      populate_configs_json cfg acc l = .ok (acc ++ contrib_entries cfg l) := by
  intro acc l
  induction acc, l using populate_configs_json.induct cfg with
  | case1 acc =>
    intro _ _
    simp [populate_configs_json, contrib_entries]
  | case2 acc key value rest hskip ih =>
    intro hwf hnd
    rw [wf_cons_skip hskip] at hwf
    rw [contrib_keys, contrib_cons_skip hskip] at hnd
    rw [populate_cons_skip hskip, contrib_cons_skip hskip]
    exact ih hwf hnd
  | case3 acc key value rest hskip hnone ih =>
    intro hwf hnd
    obtain rfl := Val.isNone_iff.mp hnone
    rw [wf_cons_none hskip] at hwf
    rw [contrib_keys, contrib_cons_none hskip] at hnd
    rw [populate_cons_none hskip, contrib_cons_none hskip]
    exact ih hwf hnd
  | case4 acc key rest hskip k1 hnested d acc2 hok hnone ihd ihrest =>
    intro hwf hnd
    rw [show k1 = rstrip_underscore key from rfl] at hnested
    rw [wf_cons_nested hskip hnested, Bool.and_eq_true] at hwf
    obtain ⟨hwfd, hwfrest⟩ := hwf
    rw [contrib_keys, contrib_cons_nested hskip hnested, List.map_append] at hnd
    have hnd' : ((acc.map Prod.fst ++ contrib_keys cfg d)
        ++ (contrib_entries cfg rest).map Prod.fst).Nodup := by
      rw [List.append_assoc]
      exact hnd
    have hndd : (acc.map Prod.fst ++ contrib_keys cfg d).Nodup :=
      List.Nodup.sublist (List.sublist_append_left _ _) hnd'
    have hd := ihd hwfd hndd
    rw [hok] at hd
    obtain rfl : acc2 = acc ++ contrib_entries cfg d := (Except.ok.injEq _ _).mp hd
    rw [populate_cons_nested hskip hnested, hok, contrib_cons_nested hskip hnested]
    show populate_configs_json cfg (acc ++ contrib_entries cfg d) rest
      = Except.ok (acc ++ (contrib_entries cfg d ++ contrib_entries cfg rest))
    have hnd2 : ((acc ++ contrib_entries cfg d).map Prod.fst ++ contrib_keys cfg rest).Nodup := by
      rw [List.map_append]
      exact hnd'
    rw [ihrest hwfrest hnd2, List.append_assoc]
  | case5 acc key rest hskip k1 hnested d e herr hnone ihd =>
    intro hwf hnd
    rw [show k1 = rstrip_underscore key from rfl] at hnested
    rw [wf_cons_nested hskip hnested, Bool.and_eq_true] at hwf
    obtain ⟨hwfd, _⟩ := hwf
    rw [contrib_keys, contrib_cons_nested hskip hnested, List.map_append] at hnd
    have hnd' : ((acc.map Prod.fst ++ contrib_keys cfg d)
        ++ (contrib_entries cfg rest).map Prod.fst).Nodup := by
      rw [List.append_assoc]
      exact hnd
    have hndd : (acc.map Prod.fst ++ contrib_keys cfg d).Nodup :=
      List.Nodup.sublist (List.sublist_append_left _ _) hnd'
    have hd := ihd hwfd hndd
    rw [herr] at hd
    exact absurd hd (by simp)
  | case6 acc key rest hskip k1 hnested x hnotdict hnone =>
    intro hwf hnd
    rw [show k1 = rstrip_underscore key from rfl] at hnested
    rw [wf_cons_nested_nondict hskip hnested
      (fun d hd => hnotdict d hd)
      (fun hx => hnone (by rw [hx]; rfl))] at hwf
    exact absurd hwf (by simp)
  | case7 acc key value rest hskip k1 hnone hnotnested hdup =>
    intro hwf hnd
    rw [show k1 = rstrip_underscore key from rfl] at hnotnested hdup
    have hnn : value.isNone = false := by
      cases hv : value.isNone
      · rfl
      · exact absurd hv hnone
    rw [contrib_keys, contrib_cons_store hskip hnn hnotnested, List.map_cons] at hnd
    rw [List.nodup_append] at hnd
    exact absurd (hnd.2.2 hdup (List.mem_cons_self _ _)) (fun h => h)
  | case8 acc key value rest hskip k1 hnone hnotnested hfresh ih =>
    intro hwf hnd
    rw [show k1 = rstrip_underscore key from rfl] at hnotnested hfresh
    have hnn : value.isNone = false := by
      cases hv : value.isNone
      · rfl
      · exact absurd hv hnone
    rw [wf_cons_store hskip hnn hnotnested] at hwf
    rw [contrib_keys, contrib_cons_store hskip hnn hnotnested, List.map_cons] at hnd
    rw [populate_cons_store hskip hnn hnotnested, if_neg hfresh,
      contrib_cons_store hskip hnn hnotnested]
    have hnd2 : ((acc ++ [(rstrip_underscore key, unwrap_secret value)]).map Prod.fst
        ++ contrib_keys cfg rest).Nodup := by
      rw [List.map_append]
      simpa [List.append_assoc] using hnd
    rw [ih hwf hnd2]
    simp

/-- On a well-formed dictionary whose contributing keys clash — with each
other or with keys already in the (duplicate-free) accumulator —
`_populate_configs_json` raises the duplicate-key `ValueError`, and the key
named in the message really occurs at least twice among the accumulator keys
and the contributing keys. -/
theorem populate_error (cfg : DbtConfigsMeta) :
    ∀ (acc : List (String × Val)) (l : Entries),
      wf_entries cfg l = true →
      (acc.map Prod.fst).Nodup →
      ¬(acc.map Prod.fst ++ contrib_keys cfg l).Nodup →
      ∃ k, populate_configs_json cfg acc l = .error (dup_msg k) ∧
        2 ≤ (acc.map Prod.fst ++ contrib_keys cfg l).count k := by
  intro acc l
  induction acc, l using populate_configs_json.induct cfg with
  | case1 acc =>
    intro _ haccnd hnd
    rw [contrib_keys] at hnd
    simp only [contrib_entries, List.map_nil, List.append_nil] at hnd
    exact absurd haccnd hnd
  | case2 acc key value rest hskip ih =>
    intro hwf haccnd hnd
    rw [wf_cons_skip hskip] at hwf
    rw [contrib_keys, contrib_cons_skip hskip] at hnd
    rw [populate_cons_skip hskip]
    obtain ⟨k, herr, hcount⟩ := ih hwf haccnd hnd
    refine ⟨k, herr, ?_⟩
    rwa [contrib_keys, contrib_cons_skip hskip]
  | case3 acc key value rest hskip hnone ih =>
    intro hwf haccnd hnd
    obtain rfl := Val.isNone_iff.mp hnone
    rw [wf_cons_none hskip] at hwf
    rw [contrib_keys, contrib_cons_none hskip] at hnd
    rw [populate_cons_none hskip]
    obtain ⟨k, herr, hcount⟩ := ih hwf haccnd hnd
    refine ⟨k, herr, ?_⟩
    rwa [contrib_keys, contrib_cons_none hskip]
  | case4 acc key rest hskip k1 hnested d acc2 hok hnone ihd ihrest =>
    intro hwf haccnd hnd
    rw [show k1 = rstrip_underscore key from rfl] at hnested
    rw [wf_cons_nested hskip hnested, Bool.and_eq_true] at hwf
    obtain ⟨hwfd, hwfrest⟩ := hwf
    rw [contrib_keys, contrib_cons_nested hskip hnested, List.map_append] at hnd
    by_cases hndd : (acc.map Prod.fst ++ contrib_keys cfg d).Nodup
    · have hok' := populate_ok cfg acc d hwfd hndd
      rw [hok] at hok'
      obtain rfl : acc2 = acc ++ contrib_entries cfg d := (Except.ok.injEq _ _).mp hok'
      have hacc2nd : ((acc ++ contrib_entries cfg d).map Prod.fst).Nodup := by
        rw [List.map_append]
        exact hndd
      have hnd2 : ¬((acc ++ contrib_entries cfg d).map Prod.fst
          ++ contrib_keys cfg rest).Nodup := by
        rw [List.map_append, List.append_assoc]
        exact hnd
      obtain ⟨k, herr, hcount⟩ := ihrest hwfrest hacc2nd hnd2
      refine ⟨k, ?_, ?_⟩
      · rw [populate_cons_nested hskip hnested, hok]
        exact herr
      · rw [contrib_keys, contrib_cons_nested hskip hnested, List.map_append]
        rw [List.map_append, List.append_assoc] at hcount
        exact hcount
    · obtain ⟨k, herr, _⟩ := ihd hwfd haccnd hndd
      rw [hok] at herr
      exact absurd herr (by simp)
  | case5 acc key rest hskip k1 hnested d e herr hnone ihd =>
    intro hwf haccnd hnd
    rw [show k1 = rstrip_underscore key from rfl] at hnested
    rw [wf_cons_nested hskip hnested, Bool.and_eq_true] at hwf
    obtain ⟨hwfd, hwfrest⟩ := hwf
    by_cases hndd : (acc.map Prod.fst ++ contrib_keys cfg d).Nodup
    · have hok' := populate_ok cfg acc d hwfd hndd
      rw [herr] at hok'
      exact absurd hok' (by simp)
    · obtain ⟨k, herrd, hcount⟩ := ihd hwfd haccnd hndd
      rw [herr] at herrd
      obtain rfl : e = dup_msg k := (Except.error.injEq _ _).mp herrd
      refine ⟨k, ?_, ?_⟩
      · rw [populate_cons_nested hskip hnested, herr]
      · rw [contrib_keys, contrib_cons_nested hskip hnested, List.map_append]
        rw [List.count_append] at hcount ⊢
        rw [List.count_append]
        rw [contrib_keys] at hcount
        omega
  | case6 acc key rest hskip k1 hnested x hnotdict hnone =>
    intro hwf haccnd hnd
    rw [show k1 = rstrip_underscore key from rfl] at hnested
    rw [wf_cons_nested_nondict hskip hnested
      (fun d hd => hnotdict d hd)
      (fun hx => hnone (by rw [hx]; rfl))] at hwf
    exact absurd hwf (by simp)
  | case7 acc key value rest hskip k1 hnone hnotnested hdup =>
    intro hwf haccnd hnd
    rw [show k1 = rstrip_underscore key from rfl] at hnotnested hdup
    have hnn : value.isNone = false := by
      cases hv : value.isNone
      · rfl
      · exact absurd hv hnone
    refine ⟨rstrip_underscore key, ?_, ?_⟩
    · rw [populate_cons_store hskip hnn hnotnested, if_pos hdup]
    · rw [contrib_keys, contrib_cons_store hskip hnn hnotnested, List.map_cons]
      rw [List.count_append, List.count_cons_self]
      have h1 : 0 < (acc.map Prod.fst).count (rstrip_underscore key) :=
        List.count_pos_iff.mpr hdup
      omega
  | case8 acc key value rest hskip k1 hnone hnotnested hfresh ih =>
    intro hwf haccnd hnd
    rw [show k1 = rstrip_underscore key from rfl] at hnotnested hfresh
    have hnn : value.isNone = false := by
      cases hv : value.isNone
      · rfl
      · exact absurd hv hnone
    rw [wf_cons_store hskip hnn hnotnested] at hwf
    rw [contrib_keys, contrib_cons_store hskip hnn hnotnested, List.map_cons] at hnd
    have hlisteq :
        (acc ++ [(rstrip_underscore key, unwrap_secret value)]).map Prod.fst
          ++ (contrib_entries cfg rest).map Prod.fst
        = acc.map Prod.fst
          ++ (rstrip_underscore key :: (contrib_entries cfg rest).map Prod.fst) := by
      simp
    have hacc2nd : ((acc ++ [(rstrip_underscore key, unwrap_secret value)]).map
        Prod.fst).Nodup := by
      rw [List.map_append, List.nodup_append]
      refine ⟨haccnd, List.nodup_singleton _, ?_⟩
      simpa using hfresh
    have hnd2 : ¬((acc ++ [(rstrip_underscore key, unwrap_secret value)]).map Prod.fst
        ++ contrib_keys cfg rest).Nodup := by
      rw [contrib_keys, hlisteq]
      exact hnd
    obtain ⟨k, herr, hcount⟩ := ih hwf hacc2nd hnd2
    refine ⟨k, ?_, ?_⟩
    · rw [populate_cons_store hskip hnn hnotnested, if_neg hfresh]
      exact herr
    · rw [contrib_keys, contrib_cons_store hskip hnn hnotnested, List.map_cons]
      rw [contrib_keys, hlisteq] at hcount
      exact hcount

/-- The head of `dropWhile p l`, when it exists, falsifies `p`. -/
lemma head?_dropWhile_false {α : Type} {p : α → Bool} :
    ∀ (l : List α) (a : α), (l.dropWhile p).head? = some a → p a = false := by
  intro l
  induction l with
  | nil => intro a h; simp [List.dropWhile] at h
  | cons x xs ih =>
    intro a h
    by_cases hp : p x = true
    · rw [List.dropWhile_cons_of_pos hp] at h
      exact ih a h
    · rw [List.dropWhile_cons_of_neg hp] at h
      obtain rfl : x = a := by simpa using h
      simpa using hp

/-- A stripped key never ends with an underscore. -/
lemma rstrip_no_trailing (s : String) :
    (rstrip_underscore s).data.getLast? ≠ some '_' := by
  intro h
  rw [rstrip_underscore] at h
  rw [List.getLast?_reverse] at h
  have := head?_dropWhile_false _ _ h
  simp at this

/-- Unwrapping never yields a secret wrapper. -/
lemma unwrap_secret_not_wrapped (v : Val) :
    (unwrap_secret v).isSecretWrapped = false := by
  cases v <;> rfl

/-- Every entry of a successful `_populate_configs_json` result either was
already in the accumulator or is a stored pair: a stripped key not listed in
`_nested_fields`, mapped to its secret-unwrapped value. -/
theorem populate_mem (cfg : DbtConfigsMeta) :
    ∀ (acc : List (String × Val)) (l : Entries) (m : List (String × Val)),
      populate_configs_json cfg acc l = .ok m →
      ∀ kv ∈ m, kv ∈ acc ∨
        ∃ key v, kv = (rstrip_underscore key, unwrap_secret v) ∧
          rstrip_underscore key ∉ cfg.nested_fields := by
  intro acc l
  induction acc, l using populate_configs_json.induct cfg with
  | case1 acc =>
    intro m hm kv hkv
    rw [populate_configs_json] at hm
    obtain rfl : acc = m := (Except.ok.injEq _ _).mp hm
    exact Or.inl hkv
  | case2 acc key value rest hskip ih =>
    intro m hm
    rw [populate_cons_skip hskip] at hm
    exact ih m hm
  | case3 acc key value rest hskip hnone ih =>
    intro m hm
    obtain rfl := Val.isNone_iff.mp hnone
    rw [populate_cons_none hskip] at hm
    exact ih m hm
  | case4 acc key rest hskip k1 hnested d acc2 hok hnone ihd ihrest =>
    intro m hm kv hkv
    rw [show k1 = rstrip_underscore key from rfl] at hnested
    rw [populate_cons_nested hskip hnested, hok] at hm
    have hm' : populate_configs_json cfg acc2 rest = .ok m := hm
    rcases ihrest m hm' kv hkv with h2 | h2
    · exact ihd acc2 hok kv h2
    · exact Or.inr h2
  | case5 acc key rest hskip k1 hnested d e herr hnone ihd =>
    intro m hm
    rw [show k1 = rstrip_underscore key from rfl] at hnested
    rw [populate_cons_nested hskip hnested, herr] at hm
    exact absurd hm (by simp)
  | case6 acc key rest hskip k1 hnested x hnotdict hnone =>
    intro m hm
    rw [show k1 = rstrip_underscore key from rfl] at hnested
    have hnn : x.isNone = false := by
      cases hv : x.isNone
      · rfl
      · exact absurd hv hnone
    have : populate_configs_json cfg acc (.cons key x rest) = .error attr_error_msg := by
      cases x <;> simp_all [populate_configs_json, hskip, hnested, Val.isNone]
    rw [this] at hm
    exact absurd hm (by simp)
  | case7 acc key value rest hskip k1 hnone hnotnested hdup =>
    intro m hm
    rw [show k1 = rstrip_underscore key from rfl] at hnotnested hdup
    have hnn : value.isNone = false := by
      cases hv : value.isNone
      · rfl
      · exact absurd hv hnone
    rw [populate_cons_store hskip hnn hnotnested, if_pos hdup] at hm
    exact absurd hm (by simp)
  | case8 acc key value rest hskip k1 hnone hnotnested hfresh ih =>
    intro m hm kv hkv
    rw [show k1 = rstrip_underscore key from rfl] at hnotnested hfresh
    have hnn : value.isNone = false := by
      cases hv : value.isNone
      · rfl
      · exact absurd hv hnone
    rw [populate_cons_store hskip hnn hnotnested, if_neg hfresh] at hm
    rcases ih m hm kv hkv with h2 | h2
    · rcases List.mem_append.mp h2 with h3 | h3
      · exact Or.inl h3
      · obtain rfl : kv = (rstrip_underscore key, unwrap_secret value) := by
          simpa using h3
        exact Or.inr ⟨key, value, rfl, hnotnested⟩
    · exact Or.inr h2

/-- On a well-formed dictionary, the only error `_populate_configs_json` can
raise is the duplicate-key `ValueError`. -/
theorem populate_error_shape (cfg : DbtConfigsMeta) :
    ∀ (acc : List (String × Val)) (l : Entries),
      wf_entries cfg l = true →
      ∀ e, populate_configs_json cfg acc l = .error e →
        ∃ k, e = dup_msg k := by
  intro acc l
  induction acc, l using populate_configs_json.induct cfg with
  | case1 acc =>
    intro _ e he
    rw [populate_configs_json] at he
    exact absurd he (by simp)
  | case2 acc key value rest hskip ih =>
    intro hwf e he
    rw [wf_cons_skip hskip] at hwf
    rw [populate_cons_skip hskip] at he
    exact ih hwf e he
  | case3 acc key value rest hskip hnone ih =>
    intro hwf e he
    obtain rfl := Val.isNone_iff.mp hnone
    rw [wf_cons_none hskip] at hwf
    rw [populate_cons_none hskip] at he
    exact ih hwf e he
  | case4 acc key rest hskip k1 hnested d acc2 hok hnone ihd ihrest =>
    intro hwf e he
    rw [show k1 = rstrip_underscore key from rfl] at hnested
    rw [wf_cons_nested hskip hnested, Bool.and_eq_true] at hwf
    rw [populate_cons_nested hskip hnested, hok] at he
    exact ihrest hwf.2 e he
  | case5 acc key rest hskip k1 hnested d e0 herr hnone ihd =>
    intro hwf e he
    rw [show k1 = rstrip_underscore key from rfl] at hnested
    rw [wf_cons_nested hskip hnested, Bool.and_eq_true] at hwf
    rw [populate_cons_nested hskip hnested, herr] at he
    obtain rfl := (Except.error.injEq _ _).mp he
    exact ihd hwf.1 _ herr
  | case6 acc key rest hskip k1 hnested x hnotdict hnone =>
    intro hwf e he
    rw [show k1 = rstrip_underscore key from rfl] at hnested
    rw [wf_cons_nested_nondict hskip hnested
      (fun d hd => hnotdict d hd)
      (fun hx => hnone (by rw [hx]; rfl))] at hwf
    exact absurd hwf (by simp)
  | case7 acc key value rest hskip k1 hnone hnotnested hdup =>
    intro hwf e he
    rw [show k1 = rstrip_underscore key from rfl] at hnotnested hdup
    have hnn : value.isNone = false := by
      cases hv : value.isNone
      · rfl
      · exact absurd hv hnone
    rw [populate_cons_store hskip hnn hnotnested, if_pos hdup] at he
    exact ⟨rstrip_underscore key, ((Except.error.injEq _ _).mp he).symm⟩
  | case8 acc key value rest hskip k1 hnone hnotnested hfresh ih =>
    intro hwf e he
    rw [show k1 = rstrip_underscore key from rfl] at hnotnested hfresh
    have hnn : value.isNone = false := by
      cases hv : value.isNone
      · rfl
      · exact absurd hv hnone
    rw [wf_cons_store hskip hnn hnotnested] at hwf
    rw [populate_cons_store hskip hnn hnotnested, if_neg hfresh] at he
    exact ih hwf e he

/-! ### The `MissingExtrasRequireError` message (lines 185-191 of `base.py`) -/

/-- Python `str.lower()` (faithful on the ASCII service names used here). -/
def pyLower (s : String) : String :=
  ⟨s.data.map Char.toLower⟩

/-- Worker for `pyTitle`: the flag records whether the previous character was
alphabetic, i.e. whether we are inside a word. -/
def pyTitleAux : List Char → Bool → List Char
  | [], _ => []
  | c :: cs, prevAlpha =>
    if c.isAlpha then
      (if prevAlpha then c.toLower else c.toUpper) :: pyTitleAux cs true
    else
      c :: pyTitleAux cs false

/-- Python `str.title()` (faithful on the ASCII service names used here):
the first letter of each alphabetic run is upper-cased, the rest of the run
lower-cased. -/
def pyTitle (s : String) : String :=
  ⟨pyTitleAux s.data false⟩

/-- The message built by `MissingExtrasRequireError.__init__`:
two adjacent f-string literals interpolating `service.title()` and
`service.lower()`. -/
def missing_extras_msg (service : String) : String :=
  "To use " ++ pyTitle service ++ "TargetConfigs, " ++
    "execute `pip install \"prefect-dbt[" ++ pyLower service ++ "]\"`"

/-- Membership in the keys of a filtered dictionary. -/
lemma filterKeys_keys_mem (p : String → Bool) :
    ∀ (l : Entries) (k : String),
      k ∈ (Entries.filterKeys p l).keys ↔ k ∈ l.keys ∧ p k = true := by
  intro l
  induction l using Entries.keys.induct with
  | case1 => intro k; simp [Entries.filterKeys, Entries.keys]
  | case2 key v rest ih =>
    intro k
    by_cases hp : p key = true
    · rw [Entries.filterKeys]
      rw [if_pos hp]
      rw [Entries.keys, Entries.keys]
      simp only [List.mem_cons, ih]
      constructor
      · rintro (rfl | ⟨hmem, hk⟩)
        · exact ⟨Or.inl rfl, hp⟩
        · exact ⟨Or.inr hmem, hk⟩
      · rintro ⟨rfl | hmem, hk⟩
        · exact Or.inl rfl
        · exact Or.inr ⟨hmem, hk⟩
    · rw [Entries.filterKeys]
      rw [if_neg hp]
      rw [Entries.keys]
      simp only [List.mem_cons, ih]
      constructor
      · rintro ⟨hmem, hk⟩
        exact ⟨Or.inr hmem, hk⟩
      · rintro ⟨rfl | hmem, hk⟩
        · exact absurd hk hp
        · exact ⟨hmem, hk⟩

/-! ### Concrete scenario instances from the spec -/

/-- Scenario `TargetConfigs(type="postgres", schema="public")` with the default
`threads=4` and no extras. -/
def tcPostgres : DbtNode := targetConfigs "postgres" "public" 4 Val.none

/-- Scenario `TargetConfigs(type="postgres", schema="public", extras={"threads": 8})`. -/
def tcPostgresDupThreads : DbtNode :=
  targetConfigs "postgres" "public" 4 (Val.dict (.cons "threads" (.int 8) .nil))

/-- A `TargetConfigs` whose extras carry a secret value. -/
def tcSecret : DbtNode :=
  targetConfigs "t" "s" 4 (Val.dict (.cons "password" (.secretStr "p") .nil))

/-- A `CredentialsTargetConfigs` subclass instance with
`credentials={"user": "a", "password": <secret "p">}` (whose serialisation,
as for every nested prefect block, also carries a `block_type_slug` entry)
and own field `schema="s"`. -/
def ctcScenario : DbtNode :=
  credentialsTargetConfigs "t" "s" 4
    (Val.dict (.cons "user" (.str "a")
      (.cons "password" (.secretStr "p")
        (.cons "block_type_slug" (.str "creds") .nil))))
    Val.none

/-- Scenario `GlobalConfigs()` with every field unset. -/
def gcUnset : DbtNode :=
  globalConfigs Val.none Val.none Val.none Val.none Val.none Val.none Val.none
    Val.none Val.none Val.none Val.none Val.none Val.none

/-- A `GlobalConfigs` with `debug=True` and `extras={"debug": False}`:
a duplicate key arising while flattening a variant other than
`TargetConfigs`. -/
def gcDupDebug : DbtNode :=
  globalConfigs Val.none Val.none Val.none Val.none Val.none Val.none Val.none
    (Val.bool true) Val.none Val.none Val.none Val.none
    (Val.dict (.cons "debug" (.bool false) .nil))

/-! ### The claims -/

/-- C1: for every ConfigNode tree (well-formed, as pydantic typing
guarantees) in which no two contributing fields resolve to the same key
after trailing-underscore stripping and exclusion filtering, `get_configs`
succeeds and returns exactly the spec-described mapping: the non-null,
non-excluded, non-underscore-prefixed stripped field names (nested-field
contents merged in, nested-field names absent), each mapped to its raw value
with secret wrappers unwrapped. -/
theorem c1_flatten_ok (n : DbtNode)
    (hwf : wf_entries n.meta (subset_dict n) = true)
    (hnd : (contrib_keys n.meta (subset_dict n)).Nodup) :
    get_configs n = .ok (contrib_entries n.meta (subset_dict n)) := by
  have h := populate_ok n.meta [] (subset_dict n) hwf (by simpa using hnd)
  simpa [get_configs] using h

/-- Witness for C1 at `TargetConfigs(type="postgres", schema="public")`. -/
theorem c1_flatten_ok_witness :
    get_configs tcPostgres
      = .ok (contrib_entries tcPostgres.meta (subset_dict tcPostgres)) :=
  c1_flatten_ok tcPostgres (by rfl) (by decide)

/-- C2: whenever two contributing fields resolve to the same stripped key,
`get_configs` fails with the duplicate-key `ValueError` naming a key that
really occurs at least twice, exposing no partial mapping; in particular
`TargetConfigs(type="postgres", schema="public", extras={"threads": 8})`
fails with the duplicate-key error for `threads`. -/
theorem c2_duplicate_error :
    (∀ n : DbtNode,
        wf_entries n.meta (subset_dict n) = true →
        ¬(contrib_keys n.meta (subset_dict n)).Nodup →
        ∃ k, get_configs n = .error (dup_msg k) ∧
          2 ≤ (contrib_keys n.meta (subset_dict n)).count k)
    ∧ get_configs tcPostgresDupThreads = .error (dup_msg "threads") := by
  constructor
  · intro n hwf hnd
    obtain ⟨k, he, hc⟩ := populate_error n.meta [] (subset_dict n) hwf (by simp)
      (by simpa using hnd)
    exact ⟨k, he, by simpa using hc⟩
  · rfl

/-- Witness for C2 at the duplicate-`threads` scenario. -/
theorem c2_duplicate_error_witness :
    ∃ k, get_configs tcPostgresDupThreads = .error (dup_msg k) ∧
      2 ≤ (contrib_keys tcPostgresDupThreads.meta
            (subset_dict tcPostgresDupThreads)).count k :=
  c2_duplicate_error.1 tcPostgresDupThreads (by rfl) (by decide)

/-- C3: the working field set of `get_configs` is the full runtime field set
when `_include_fields` is falsy, and `_include_fields ∪ _nested_fields`
otherwise; and `TargetConfigs(type="postgres", schema="public")` flattens to
exactly `{"type": "postgres", "schema": "public", "threads": 4}`. -/
theorem c3_working_field_set :
    (∀ (n : DbtNode) (k : String),
        k ∈ (subset_dict n).keys ↔
          k ∈ n.fields.keys ∧
            (n.include_fields ≠ [] →
              k ∈ n.include_fields ∨ k ∈ n.nested_fields))
    ∧ get_configs tcPostgres
      = .ok [("type", .str "postgres"), ("schema", .str "public"),
             ("threads", .int 4)] := by
  constructor
  · intro n k
    rw [subset_dict]
    by_cases hinc : n.include_fields = []
    · rw [if_pos hinc]
      simp [hinc]
    · rw [if_neg hinc]
      rw [filterKeys_keys_mem]
      simp [hinc, List.mem_append]
  · rfl

/-- Witness for C3: the inclusion rule instantiated at `tcPostgres` and the
field name `schema_`. -/
theorem c3_working_field_set_witness :
    "schema_" ∈ (subset_dict tcPostgres).keys ↔
      "schema_" ∈ tcPostgres.fields.keys ∧
        (tcPostgres.include_fields ≠ [] →
          "schema_" ∈ tcPostgres.include_fields ∨
            "schema_" ∈ tcPostgres.nested_fields) :=
  c3_working_field_set.1 tcPostgres "schema_"

/-- C4: every key emitted by `get_configs` has all trailing underscores
stripped — no output key ends with an underscore character. -/
theorem c4_no_trailing_underscore :
    ∀ (n : DbtNode) (m : List (String × Val)),
      get_configs n = .ok m →
      ∀ kv ∈ m, kv.1.data.getLast? ≠ some '_' := by
  intro n m hm kv hkv
  rcases populate_mem n.meta [] (subset_dict n) m hm kv hkv with h | ⟨key, v, rfl, _⟩
  · simp at h
  · exact rstrip_no_trailing key

/-- Witness for C4: the `schema_` field of `tcPostgres` is emitted under the
stripped key `schema`, which does not end with an underscore. -/
theorem c4_no_trailing_underscore_witness :
    ("schema", Val.str "public").1.data.getLast? ≠ some '_' :=
  c4_no_trailing_underscore tcPostgres
    [("type", .str "postgres"), ("schema", .str "public"), ("threads", .int 4)]
    rfl ("schema", Val.str "public") (by simp)

/-- C5: a null-valued field never contributes a key — every output key is a
contributing (in particular non-null) field name; and `GlobalConfigs()` with
all fields unset flattens to the empty mapping. -/
theorem c5_null_never_emitted :
    (∀ (n : DbtNode) (m : List (String × Val)),
        wf_entries n.meta (subset_dict n) = true →
        get_configs n = .ok m →
        ∀ k ∈ m.map Prod.fst, k ∈ contrib_keys n.meta (subset_dict n))
    ∧ get_configs gcUnset = .ok [] := by
  constructor
  · intro n m hwf hm k hk
    by_cases hnd : (contrib_keys n.meta (subset_dict n)).Nodup
    · have h := populate_ok n.meta [] (subset_dict n) hwf (by simpa using hnd)
      have hm' : populate_configs_json n.meta [] (subset_dict n) = .ok m := hm
      rw [h] at hm'
      obtain rfl := (Except.ok.injEq _ _).mp hm'
      simpa [contrib_keys] using hk
    · obtain ⟨k0, he, _⟩ := populate_error n.meta [] (subset_dict n) hwf (by simp)
        (by simpa using hnd)
      have hm' : populate_configs_json n.meta [] (subset_dict n) = .ok m := hm
      rw [he] at hm'
      exact absurd hm' (by simp)
  · rfl

/-- Witness for C5 at `tcPostgres` and its emitted key `type`. -/
theorem c5_null_never_emitted_witness :
    "type" ∈ contrib_keys tcPostgres.meta (subset_dict tcPostgres) :=
  c5_null_never_emitted.1 tcPostgres
    [("type", .str "postgres"), ("schema", .str "public"), ("threads", .int 4)]
    (by rfl) rfl "type" (by simp)

/-- C6: no value in the output mapping is a wrapped secret — every stored
value has passed through secret unwrapping. -/
theorem c6_secrets_unwrapped :
    ∀ (n : DbtNode) (m : List (String × Val)),
      get_configs n = .ok m →
      ∀ kv ∈ m, kv.2.isSecretWrapped = false := by
  intro n m hm kv hkv
  rcases populate_mem n.meta [] (subset_dict n) m hm kv hkv with h | ⟨key, v, rfl, _⟩
  · simp at h
  · exact unwrap_secret_not_wrapped v

/-- Witness for C6: a secret extras value is emitted as its plaintext. -/
theorem c6_secrets_unwrapped_witness :
    ("password", Val.str "p").2.isSecretWrapped = false :=
  c6_secrets_unwrapped tcSecret
    [("password", .str "p"), ("type", .str "t"), ("schema", .str "s"),
     ("threads", .int 4)]
    rfl ("password", Val.str "p") (by simp)

/-- C7: for nodes that list `credentials` among `_nested_fields`, the
credentials sub-object is flattened alongside the node own fields and the
key `credentials` itself never appears in the output; the spec scenario
yields exactly the merged mapping with `password` unwrapped,
`block_type_slug` excluded and no `credentials` key. -/
theorem c7_credentials_merged :
    (∀ (n : DbtNode) (m : List (String × Val)),
        "credentials" ∈ n.nested_fields →
        get_configs n = .ok m →
        "credentials" ∉ m.map Prod.fst)
    ∧ get_configs ctcScenario
      = .ok [("type", .str "t"), ("schema", .str "s"), ("threads", .int 4),
             ("user", .str "a"), ("password", .str "p")] := by
  constructor
  · intro n m hcred hm hmem
    obtain ⟨kv, hkv, hfst⟩ := List.mem_map.mp hmem
    rcases populate_mem n.meta [] (subset_dict n) m hm kv hkv with h | ⟨key, v, rfl, hnotn⟩
    · simp at h
    · have hk : rstrip_underscore key = "credentials" := hfst
      rw [hk] at hnotn
      exact hnotn hcred
  · rfl

/-- Witness for C7: the scenario output carries no `credentials` key. -/
theorem c7_credentials_merged_witness :
    "credentials" ∉ ([("type", Val.str "t"), ("schema", Val.str "s"),
      ("threads", Val.int 4), ("user", Val.str "a"),
      ("password", Val.str "p")]).map Prod.fst :=
  c7_credentials_merged.1 ctcScenario
    [("type", .str "t"), ("schema", .str "s"), ("threads", .int 4),
     ("user", .str "a"), ("password", .str "p")]
    (by decide) rfl

/-- C8: `get_configs` is deterministic in its input node — two invocations
on the same tree return the same result (the embedding is pure, so freedom
from mutation of the source node holds by construction). -/
theorem c8_deterministic :
    ∀ (n : DbtNode) (m1 m2 : Except String (List (String × Val))),
      get_configs n = m1 → get_configs n = m2 → m1 = m2 := by
  intro n m1 m2 h1 h2
  rw [← h1, ← h2]

/-- Witness for C8 at `tcPostgres`. -/
theorem c8_deterministic_witness :
    (Except.ok [("type", Val.str "postgres"), ("schema", Val.str "public"),
        ("threads", Val.int 4)] : Except String (List (String × Val)))
      = .ok [("type", Val.str "postgres"), ("schema", Val.str "public"),
             ("threads", Val.int 4)] :=
  c8_deterministic tcPostgres _ _ rfl rfl

/-- C9 counterexample: for `service = "AB"` the constructed message contains
neither the service name as given nor the pip instruction with the service
as given (the code title-cases and lower-cases the service). -/
theorem c9_counterexample :
    ¬ (List.IsInfix "AB".data (missing_extras_msg "AB").data ∧
       List.IsInfix ("pip install \"prefect-dbt[" ++ "AB" ++ "]\"").data
         (missing_extras_msg "AB").data) := by
  decide

/-- C9 (amended): for every service string, the `MissingExtrasRequireError`
message contains the title-cased service name and the pip install
instruction for the lower-cased service. -/
theorem c9_message_contains (service : String) :
    List.IsInfix (pyTitle service).data (missing_extras_msg service).data ∧
    List.IsInfix
      ("pip install \"prefect-dbt[" ++ pyLower service ++ "]\"").data
      (missing_extras_msg service).data := by
  constructor
  · refine ⟨"To use ".data,
      "TargetConfigs, ".data ++ "execute `pip install \"prefect-dbt[".data
        ++ (pyLower service).data ++ "]\"`".data, ?_⟩
    simp [missing_extras_msg, String.data_append]
  · refine ⟨"To use ".data ++ (pyTitle service).data
        ++ "TargetConfigs, execute `".data,
      "`".data, ?_⟩
    simp [missing_extras_msg, String.data_append]

/-- C10: on every well-formed tree, any error raised by `get_configs`
carries the fixed phrase `has already been provided in TargetConfigs`, even
when the duplicate arises in a different variant; in particular a
`GlobalConfigs` with a duplicated `debug` key fails with that message. -/
theorem c10_error_blames_target_configs :
    (∀ (n : DbtNode) (e : String),
        wf_entries n.meta (subset_dict n) = true →
        get_configs n = .error e →
        List.IsInfix "has already been provided in TargetConfigs".data e.data)
    ∧ get_configs gcDupDebug = .error (dup_msg "debug") := by
  constructor
  · intro n e hwf he
    have he' : populate_configs_json n.meta [] (subset_dict n) = .error e := he
    obtain ⟨k, rfl⟩ := populate_error_shape n.meta [] (subset_dict n) hwf e he'
    refine ⟨"The keyword, ".data ++ k.data ++ ", ".data,
      "; remove duplicated keywords to continue".data, ?_⟩
    simp [dup_msg, String.data_append]
  · rfl

/-- Witness for C10 at the duplicated-`debug` `GlobalConfigs` scenario. -/
theorem c10_error_blames_target_configs_witness :
    List.IsInfix "has already been provided in TargetConfigs".data
      (dup_msg "debug").data :=
  c10_error_blames_target_configs.1 gcDupDebug (dup_msg "debug") (by rfl) (by rfl)

end PrefectDbt
